import Mathlib

/-!
Verification of the retrieval-and-ranking core of the committee-assistant
repository.  Each JavaScript function named in the claims is translated
into a Lean definition over exact rationals (JS numbers are modelled by
`ℚ`; the only irrational operation, `Math.sqrt` inside the cosine
similarity, is modelled over `ℝ`), and the claims are settled as theorems
about those definitions.
-/

set_option autoImplicit false
set_option maxHeartbeats 1000000

namespace Spec2Proof

/-! ## HybridSearchEngine (HybridSearchEngine.js)

The constructor builds `this.config` with `config.x || default` defaulting:
a missing, zero or false value falls back to the default. -/

namespace Hybrid

/-- JS `v || d` defaulting for numeric config fields: `undefined` or `0`
falls back to the default. -/
def orD (v : Option ℚ) (d : ℚ) : ℚ :=
  match v with
  | none => d
  | some x => if x = 0 then d else x

/-- JS `v || d` defaulting for the integer `topK` field. -/
def orDNat (v : Option ℕ) (d : ℕ) : ℕ :=
  match v with
  | none => d
  | some x => if x = 0 then d else x

/-- Resolved configuration of `HybridSearchEngine` (the `this.config`
object after the constructor ran). -/
structure HSConfig where
  vectorWeight : ℚ
  textWeight : ℚ
  semanticWeight : ℚ
  baseThreshold : ℚ
  adaptiveThreshold : Bool
  topK : ℕ
  contextBoost : ℚ
  minConfidence : ℚ

/-- Constructor arguments of `HybridSearchEngine` (absent field =
`undefined`). -/
structure HSOptions where
  vectorWeight : Option ℚ := none
  textWeight : Option ℚ := none
  semanticWeight : Option ℚ := none
  baseThreshold : Option ℚ := none
  adaptiveThreshold : Option Bool := none
  topK : Option ℕ := none
  contextBoost : Option ℚ := none
  minConfidence : Option ℚ := none

/-- The `HybridSearchEngine` constructor: `config.vectorWeight || 0.6`,
`config.textWeight || 0.3`, `config.semanticWeight || 0.1`,
`config.baseThreshold || 0.65`, `config.adaptiveThreshold || true`
(which is always `true`), `config.topK || 10`,
`config.contextBoost || 0.15`, `config.minConfidence || 0.5`. -/
def mkHSConfig (o : HSOptions) : HSConfig where
  vectorWeight := orD o.vectorWeight 0.6
  textWeight := orD o.textWeight 0.3
  semanticWeight := orD o.semanticWeight 0.1
  baseThreshold := orD o.baseThreshold 0.65
  adaptiveThreshold := (o.adaptiveThreshold.getD false) || true
  topK := orDNat o.topK 10
  contextBoost := orD o.contextBoost 0.15
  minConfidence := orD o.minConfidence 0.5

/-- A result object at the confidence-calculation step: the fields
`_calculateConfidence` reads (`score`, `sourceCount`, `exactMatch`) and
the `confidence` field it writes. -/
structure CResult where
  score : ℚ
  sourceCount : ℕ
  exactMatch : Bool
  confidence : ℚ := 0

/-- Confidence of the result at position `index`, following the body of
`_calculateConfidence`: start from the score, scale by
`1 - index * 0.05`, multi-source results get `min (conf * 1.1) 1.0`,
complexity above 7 scales by `0.9`, exact matches get
`min (conf * 1.2) 0.98`, and finally `max conf minConfidence`. -/
def confidenceAt (cfg : HSConfig) (complexity : ℚ) (index : ℕ) (r : CResult) : ℚ :=
  let c1 := r.score * (1 - (index : ℚ) * 0.05)
  let c2 := if r.sourceCount > 1 then min (c1 * 1.1) 1.0 else c1
  let c3 := if complexity > 7 then c2 * 0.9 else c2
  let c4 := if r.exactMatch then min (c3 * 1.2) 0.98 else c3
  max c4 cfg.minConfidence

/-- The indexed map of `_calculateConfidence` (`results.map((result,
index) => ...)`), with the running index made explicit. -/
def calcConfAux (cfg : HSConfig) (complexity : ℚ) : ℕ → List CResult → List CResult
  | _, [] => []
  | i, r :: t =>
    { r with confidence := confidenceAt cfg complexity i r } :: calcConfAux cfg complexity (i + 1) t

/-- `_calculateConfidence(results, analyzedQuery)`: map over the results
with their index, writing the `confidence` field. -/
def calculateConfidence (cfg : HSConfig) (complexity : ℚ) (results : List CResult) :
    List CResult :=
  calcConfAux cfg complexity 0 results

/-! ### Rank fusion (`_fuseResults`) -/

/-- A retrieval hit entering fusion.  `key` is the document identity the
code computes as `result.id || result.text || JSON.stringify(result)`. -/
structure Hit where
  key : String
  score : ℚ
deriving DecidableEq, Repr

/-- One fusion source `{ source, results, weight }`. -/
structure FSource where
  name : String
  hits : List Hit
  weight : ℚ
deriving DecidableEq, Repr

/-- A fused entry of the `resultMap`: accumulated weighted score, the
contributing source names, and `sourceCount`. -/
@[ext]
structure Fused where
  key : String
  score : ℚ
  sources : List String
  sourceCount : ℕ
deriving DecidableEq, Repr

/-- Process one hit against the result map, as the inner `forEach` body of
`_fuseResults` does on a JS `Map` (updating an existing key in place,
otherwise appending at the end, since JS `Map` keeps insertion order). -/
def addHit (weight : ℚ) (name : String) : List Fused → Hit → List Fused
  | [], h => [⟨h.key, h.score * weight, [name], 1⟩]
  | e :: m, h =>
    if e.key = h.key then
      { e with score := e.score + h.score * weight,
               sources := e.sources ++ [name],
               sourceCount := e.sourceCount + 1 } :: m
    else
      e :: addHit weight name m h

/-- Process all hits of one source against the result map. -/
def processSource (m : List Fused) (s : FSource) : List Fused :=
  s.hits.foldl (addHit s.weight s.name) m

/-- The `resultMap` of `_fuseResults` after both `forEach` loops ran. -/
def fuseMap (sources : List FSource) : List Fused :=
  sources.foldl processSource []

/-- Descending-score order on fused entries (`(a, b) => b.score - a.score`). -/
def fusedGE (a b : Fused) : Prop := b.score ≤ a.score

instance : DecidableRel fusedGE := fun a b => inferInstanceAs (Decidable (b.score ≤ a.score))

instance : IsTotal Fused fusedGE := ⟨fun a b => le_total b.score a.score⟩

instance : IsTrans Fused fusedGE := ⟨fun _ _ _ h1 h2 => le_trans h2 h1⟩

/-- `_fuseResults(sources)`: accumulate weighted scores by identity, sort
descending, cap at `topK`. -/
def fuseResults (cfg : HSConfig) (sources : List FSource) : List Fused :=
  ((fuseMap sources).insertionSort fusedGE).take cfg.topK

/-- First entry of the result map with the given key (`resultMap.get`). -/
def lookupKey (k : String) : List Fused → Option Fused
  | [] => none
  | e :: m => if e.key = k then some e else lookupKey k m

/-- Hits of a list carrying the given document identity. -/
def keyHits (k : String) (l : List Hit) : List Hit := l.filter (fun h => h.key = k)

/-! ### Intelligent reranking (`_intelligentReranking`) -/

/-- Intent object of an analyzed query (`intent.type` is all the engine
reads). -/
structure Intent where
  type : String
deriving DecidableEq, Repr

/-- Question-type flags computed by `_analyzeQuestionType` (only the two
flags the strategy dispatcher reads are modelled). -/
structure QuestionType where
  isStatistical : Bool
  isComparison : Bool
deriving DecidableEq, Repr

/-- The fields of an `AnalyzedQuery` that the dispatcher, reranker and
filter read.  `context`, `subQuestions` and `databases` are kept as lists
so their lengths match the code's `.length` reads. -/
structure AnalyzedQuery where
  intent : Intent
  questionType : QuestionType
  context : List String
  complexity : ℚ
  subQuestions : List String
  databases : List String
  entities : List (String × String)
deriving DecidableEq, Repr

/-- A result entering the reranker: its fused score, `sourceCount`, and
whether `result.metadata && result.metadata.updated` holds. -/
structure RResult where
  key : String
  score : ℚ
  sourceCount : ℕ
  hasUpdated : Bool
  originalScore : ℚ := 0
deriving DecidableEq, Repr

/-- `_matchesIntent(result, intent)`: the source returns `true`
unconditionally. -/
def matchesIntent (_r : RResult) (_intent : Intent) : Bool := true

/-- `_calculateEntityMatch(result, entities)`: the source returns `0.5`
unconditionally. -/
def calculateEntityMatch (_r : RResult) (_entities : List (String × String)) : ℚ := 0.5

/-- `_assessCompleteness(result, analyzedQuery)`: the source returns `0.8`
unconditionally. -/
def assessCompleteness (_r : RResult) (_q : AnalyzedQuery) : ℚ := 0.8

/-- `_calculateFreshness(updateDate)`: the source returns `0.5`
unconditionally. -/
def calculateFreshness (_r : RResult) : ℚ := 0.5

/-- The body of `_intelligentReranking` for one result: the five
multiplicative boosts applied in program order. -/
def rerankScore (q : AnalyzedQuery) (r : RResult) : ℚ :=
  let s0 := r.score
  let s1 := if matchesIntent r q.intent then s0 * 1.2 else s0
  let s2 := s1 * (1 + calculateEntityMatch r q.entities * 0.3)
  let s3 := s2 * (1 + assessCompleteness r q * 0.15)
  let s4 := if r.hasUpdated then s3 * (1 + calculateFreshness r * 0.1) else s3
  let s5 := if r.sourceCount > 1 then s4 * 1.15 else s4
  s5

/-- The five multiplicative factors of `_intelligentReranking`, in program
order; each depends only on the result and the query, never on the
accumulated score. -/
def rerankFactors (q : AnalyzedQuery) (r : RResult) : List ℚ :=
  [ if matchesIntent r q.intent then 1.2 else 1,
    1 + calculateEntityMatch r q.entities * 0.3,
    1 + assessCompleteness r q * 0.15,
    if r.hasUpdated then 1 + calculateFreshness r * 0.1 else 1,
    if r.sourceCount > 1 then 1.15 else 1 ]

/-- Apply a list of multiplicative factors to a starting score, left to
right. -/
def applyFactors (s : ℚ) (l : List ℚ) : ℚ := l.foldl (· * ·) s

/-- Descending-score order on reranked results. -/
def rresGE (a b : RResult) : Prop := b.score ≤ a.score

instance : DecidableRel rresGE := fun a b => inferInstanceAs (Decidable (b.score ≤ a.score))

instance : IsTotal RResult rresGE := ⟨fun a b => le_total b.score a.score⟩

instance : IsTrans RResult rresGE := ⟨fun _ _ _ h1 h2 => le_trans h2 h1⟩

/-- `_intelligentReranking(results, analyzedQuery)`: rescore every result
and re-sort descending. -/
def intelligentReranking (q : AnalyzedQuery) (results : List RResult) : List RResult :=
  ((results.map fun r =>
    { r with originalScore := r.score, score := rerankScore q r }).insertionSort rresGE)

/-! ### Final filtering (`_finalFiltering`) -/

/-- A result entering the final filter; `key` is the deduplication
identity `result.id || result.text?.substring(0, 100)`. -/
structure FilterResult where
  key : String
  score : ℚ
deriving DecidableEq, Repr

/-- The `seen`-set filter of `_removeDuplicates`, first occurrence wins. -/
def dedupAux (seen : List String) : List FilterResult → List FilterResult
  | [] => []
  | r :: t => if r.key ∈ seen then dedupAux seen t else r :: dedupAux (r.key :: seen) t

/-- `_removeDuplicates(results)`. -/
def removeDuplicates (results : List FilterResult) : List FilterResult :=
  dedupAux [] results

/-- `Math.max(...scores)` over a nonempty score list (the empty case is
unreachable behind the `results.length === 0` guard). -/
def listMax : List ℚ → ℚ
  | [] => 0
  | x :: t => t.foldl max x

/-- `_calculateDynamicThreshold(results, analyzedQuery)` (the query is
received but never read). -/
def calculateDynamicThreshold (cfg : HSConfig) (results : List FilterResult)
    (_q : AnalyzedQuery) : ℚ :=
  if !cfg.adaptiveThreshold then cfg.baseThreshold
  else if results.length = 0 then cfg.baseThreshold
  else
    let scores := results.map (fun r => r.score)
    let avgScore := scores.sum / (scores.length : ℚ)
    let maxScore := listMax scores
    if maxScore - avgScore > 0.3 then max avgScore cfg.baseThreshold
    else cfg.baseThreshold * 0.85

/-- `_finalFiltering(results, analyzedQuery)`: dedup, drop below the
dynamic threshold, fall back to the best 3 when that empties a nonempty
set, cap at `topK`. -/
def finalFiltering (cfg : HSConfig) (results : List FilterResult)
    (q : AnalyzedQuery) : List FilterResult :=
  let unique := removeDuplicates results
  let threshold := calculateDynamicThreshold cfg unique q
  let filtered := unique.filter (fun r => threshold ≤ r.score)
  if filtered.length = 0 ∧ unique.length > 0 then unique.take 3
  else filtered.take cfg.topK

/-! ### Strategy dispatch (`_determineSearchStrategy`) -/

/-- The strategy labels the dispatcher can return. -/
inductive Strategy where
  | SIMPLE | COMPLEX | STATISTICAL | COMPARISON | SEQUENTIAL | DEEP
deriving DecidableEq, Repr

/-- `_determineSearchStrategy(analyzedQuery)`: the priority cascade as
written in the source. -/
def determineSearchStrategy (q : AnalyzedQuery) : Strategy :=
  if q.intent.type = "STATISTICAL" ∨ q.questionType.isStatistical then .STATISTICAL
  else if q.intent.type = "COMPARISON" ∨ q.questionType.isComparison then .COMPARISON
  else if q.intent.type = "FOLLOWUP" ∨ q.context.length > 0 then .SEQUENTIAL
  else if q.complexity > 7 ∨ q.subQuestions.length > 2 then .DEEP
  else if q.complexity > 4 ∨ q.databases.length > 1 then .COMPLEX
  else .SIMPLE

/-- Modelled from the spec wording of the claim (not from the code), for
the refinement comparison: first match wins in the order STATISTICAL →
COMPARISON → SEQUENTIAL (follow-up intent or non-empty prior context) →
DEEP (complexity > 7 or more than 2 sub-questions) → COMPLEX
(complexity > 4 or more than 1 target collection) → SIMPLE. -/
def specStrategyCascade (q : AnalyzedQuery) : Strategy :=
  if q.intent.type = "STATISTICAL" ∨ q.questionType.isStatistical then .STATISTICAL
  else if q.intent.type = "COMPARISON" ∨ q.questionType.isComparison then .COMPARISON
  else if q.intent.type = "FOLLOWUP" ∨ q.context ≠ [] then .SEQUENTIAL
  else if q.complexity > 7 ∨ q.subQuestions.length > 2 then .DEEP
  else if q.complexity > 4 ∨ q.databases.length > 1 then .COMPLEX
  else .SIMPLE

/-! ### The hybrid-layer result cache (steps 130–135 of `search`) -/

/-- JS `Map.set`: update the first entry with the key in place, otherwise
append at the end. -/
def jsMapSet {V : Type} : List (String × V) → String → V → List (String × V)
  | [], k, v => [(k, v)]
  | (k0, v0) :: t, k, v =>
    if k0 = k then (k0, v) :: t else (k0, v0) :: jsMapSet t k v

/-- JS `Map.delete`: remove the first entry with the key. -/
def jsMapDelete {V : Type} : List (String × V) → String → List (String × V)
  | [], _ => []
  | (k0, v0) :: t, k => if k0 = k then t else (k0, v0) :: jsMapDelete t k

/-- JS `Map.get` as an option. -/
def jsMapGet {V : Type} : List (String × V) → String → Option V
  | [], _ => none
  | (k0, v0) :: t, k => if k0 = k then some v0 else jsMapGet t k

/-- `map.keys().next().value`: the first key in insertion order. -/
def firstKey? {V : Type} (m : List (String × V)) : Option String :=
  m.head?.map Prod.fst

/-- The cache store step of `search`: `searchCache.set(cacheKey, results)`
followed by `if (searchCache.size > 100) delete(first key)`. -/
def hybridCacheStore {V : Type} (cache : List (String × V)) (k : String) (v : V) :
    List (String × V) :=
  let c := jsMapSet cache k v
  if c.length > 100 then
    match firstKey? c with
    | some fk => jsMapDelete c fk
    | none => c
  else c

end Hybrid

/-! ## CacheManager (CacheManager.js)

The generic bounded cache.  `Date.now()` is modelled by an explicit `now`
argument threaded through the operations; the statistics bookkeeping
(`this.stats`) has no effect on cache contents and is omitted. -/

namespace CacheM

/-- Resolved configuration (`maxSize` defaults to 1000, `defaultTTL` to
one hour). -/
structure CMConfig where
  maxSize : ℕ
  defaultTTL : ℕ
deriving Repr

/-- A cache entry as built by `set`. -/
structure Entry (V : Type) where
  value : V
  createdAt : ℕ
  expiresAt : ℕ
  accessCount : ℕ
  lastAccessed : ℕ
deriving DecidableEq, Repr

/-- The mutable state: `memoryCache` and the `accessOrder` map (key →
last access time; its JS `Map` insertion order is the recency order). -/
structure CMState (V : Type) where
  cache : List (String × Entry V)
  accessOrder : List (String × ℕ)
deriving Repr

/-- `_updateAccess(key)`: delete the key from `accessOrder` and re-insert
it at the end with the current time, then bump the entry's `lastAccessed`
and `accessCount` when present. -/
def updateAccess {V : Type} (st : CMState V) (now : ℕ) (k : String) : CMState V :=
  let ao := Hybrid.jsMapSet (Hybrid.jsMapDelete st.accessOrder k) k now
  let c :=
    match Hybrid.jsMapGet st.cache k with
    | some e =>
      Hybrid.jsMapSet st.cache k { e with lastAccessed := now, accessCount := e.accessCount + 1 }
    | none => st.cache
  ⟨c, ao⟩

/-- `delete(key)`: remove the key from both maps when present. -/
def cmDelete {V : Type} (st : CMState V) (k : String) : CMState V :=
  match Hybrid.jsMapGet st.cache k with
  | some _ => ⟨Hybrid.jsMapDelete st.cache k, Hybrid.jsMapDelete st.accessOrder k⟩
  | none => st

/-- `_evictLRU()`: delete the key at the front of `accessOrder` (the least
recently accessed key), when one exists. -/
def evictLRU {V : Type} (st : CMState V) : CMState V :=
  match Hybrid.firstKey? st.accessOrder with
  | some k => cmDelete st k
  | none => st

/-- `set(key, value, ttl)`: evict when at capacity, build the entry, store
it, and record the access. -/
def cmSet {V : Type} (cfg : CMConfig) (st : CMState V) (now : ℕ) (k : String) (v : V)
    (ttl : Option ℕ) : CMState V :=
  let st1 := if st.cache.length ≥ cfg.maxSize then evictLRU st else st
  let entry : Entry V :=
    { value := v, createdAt := now, expiresAt := now + ttl.getD cfg.defaultTTL,
      accessCount := 0, lastAccessed := now }
  let st2 : CMState V := ⟨Hybrid.jsMapSet st1.cache k entry, st1.accessOrder⟩
  updateAccess st2 now k

/-- `get(key)`: a hit refreshes the access order; an expired entry is
deleted and reported as a miss. -/
def cmGet {V : Type} (st : CMState V) (now : ℕ) (k : String) : Option V × CMState V :=
  match Hybrid.jsMapGet st.cache k with
  | none => (none, st)
  | some e =>
    if now > e.expiresAt then (none, cmDelete st k)
    else (some e.value, updateAccess st now k)

end CacheM

/-! ## LearningEngine (LearningEngine.js) -/

namespace LearnE

/-- The learned parameters (`this.learnedWeights`). -/
structure LWeights where
  vectorWeight : ℚ
  textWeight : ℚ
  semanticWeight : ℚ
  contextBoost : ℚ
  baseThreshold : ℚ
deriving DecidableEq, Repr

/-- The constructor's initial learned weights. -/
def initialWeights : LWeights :=
  { vectorWeight := 0.6, textWeight := 0.3, semanticWeight := 0.1,
    contextBoost := 0.15, baseThreshold := 0.65 }

/-- The configuration fields the adaptation steps read (defaults
`learningRate = 0.05`, `minInteractions = 10`). -/
structure LConfig where
  learningRate : ℚ
  minInteractions : ℕ
deriving Repr

/-- Constructor defaults. -/
def defaultLConfig : LConfig := { learningRate := 0.05, minInteractions := 10 }

/-- An interaction record, restricted to the fields the adaptation steps
read. -/
structure Interaction where
  success : Bool
  databases : List String
deriving DecidableEq, Repr

/-- `_getRecentInteractions(limit)`: `history.slice(-limit)`. -/
def getRecentInteractions (history : List Interaction) (limit : ℕ) : List Interaction :=
  history.drop (history.length - limit)

/-- `_calculateSuccessRate(interactions, type)`: success ratio over the
interactions whose `databases` mention the type, `0.5` when there are
none. -/
def calculateSuccessRate (interactions : List Interaction) (ty : String) : ℚ :=
  let typeInteractions := interactions.filter (fun i => ty ∈ i.databases)
  if typeInteractions.length = 0 then 0.5
  else ((typeInteractions.filter (fun i => i.success)).length : ℚ) / (typeInteractions.length : ℚ)

/-- `_normalizeWeights()`: when the three retrieval weights do not sum to
1, divide each by the total. -/
def normalizeWeights (w : LWeights) : LWeights :=
  let total := w.vectorWeight + w.textWeight + w.semanticWeight
  if total = 1 then w
  else { w with vectorWeight := w.vectorWeight / total,
                textWeight := w.textWeight / total,
                semanticWeight := w.semanticWeight / total }

/-- `_updateWeights()` acting on the given recent interactions: shift the
vector/text split by the learning rate with clamps at 0.8 and 0.2, then
renormalize. -/
def updateWeights (cfg : LConfig) (w : LWeights) (recent : List Interaction) : LWeights :=
  if recent.length < cfg.minInteractions then w
  else
    let vectorSuccess := calculateSuccessRate recent "vector"
    let textSuccess := calculateSuccessRate recent "text"
    let w1 :=
      if vectorSuccess > textSuccess then
        { w with vectorWeight := min (w.vectorWeight + cfg.learningRate) 0.8,
                 textWeight := max (w.textWeight - cfg.learningRate) 0.2 }
      else
        { w with textWeight := min (w.textWeight + cfg.learningRate) 0.8,
                 vectorWeight := max (w.vectorWeight - cfg.learningRate) 0.2 }
    normalizeWeights w1

/-- `_adjustThreshold()` acting on the given recent interactions: lower the
base threshold by 0.02 (floor 0.5) when the success rate is below 0.6,
raise it by 0.01 (cap 0.75) when above 0.85. -/
def adjustThreshold (cfg : LConfig) (w : LWeights) (recent : List Interaction) : LWeights :=
  if recent.length < cfg.minInteractions then w
  else
    let successRate := ((recent.filter (fun i => i.success)).length : ℚ) / (recent.length : ℚ)
    if successRate < 0.6 then { w with baseThreshold := max (w.baseThreshold - 0.02) 0.5 }
    else if successRate > 0.85 then { w with baseThreshold := min (w.baseThreshold + 0.01) 0.75 }
    else w

/-- One weight-adaptation step as `_updateWeights` performs it, including
its `_getRecentInteractions(50)` window. -/
def updateWeightsStep (cfg : LConfig) (w : LWeights) (history : List Interaction) : LWeights :=
  updateWeights cfg w (getRecentInteractions history 50)

/-- One threshold-adaptation step as `_adjustThreshold` performs it,
including its `_getRecentInteractions(30)` window. -/
def adjustThresholdStep (cfg : LConfig) (w : LWeights) (history : List Interaction) : LWeights :=
  adjustThreshold cfg w (getRecentInteractions history 30)

/-- A concrete interaction history: ten successful vector-sourced
interactions (enough to clear `minInteractions`), which makes every
weight-adaptation step shift toward the vector weight. -/
def vectorOnlyHistory : List Interaction := List.replicate 10 ⟨true, ["vector"]⟩

end LearnE

/-! ## ConfidenceScorer (ConfidenceScorer.js), source-reliability factor -/

namespace ConfScorer

/-- A result as `scoreSourceReliability` reads it: only the `source`
field matters (`none` models a missing field). -/
structure SResult where
  source : Option String
deriving DecidableEq, Repr

/-- The per-result increment added to `reliabilityScore` in the loop. -/
def reliabilityIncrement (r : SResult) : ℚ :=
  if r.source = some "activity_database" then 0.35
  else if r.source = some "industrial_database" then 0.35
  else if r.source = some "decision104_database" then 0.3
  else 0.2

/-- The `{ source, reliability }` annotation pushed for each result. -/
def sourceEntry (r : SResult) : String × ℚ :=
  if r.source = some "activity_database" then ("activity_database", 0.95)
  else if r.source = some "industrial_database" then ("industrial_database", 0.95)
  else if r.source = some "decision104_database" then ("decision104_database", 0.9)
  else (r.source.getD "unknown", 0.6)

/-- What `scoreSourceReliability` returns (the no-result branch carries no
`sources` list; it is modelled with an empty one). -/
structure ReliabilityReport where
  score : ℚ
  sources : List (String × ℚ)
  avgReliability : ℚ
deriving DecidableEq, Repr

/-- `scoreSourceReliability(results)`: sum the per-result increments,
divide by the result count, clamp above at 1. -/
def scoreSourceReliability (results : List SResult) : ReliabilityReport :=
  if results.length = 0 then { score := 0.5, sources := [], avgReliability := 0.5 }
  else
    let total := (results.map reliabilityIncrement).sum
    let avg := total / (results.length : ℚ)
    { score := min 1 avg, sources := results.map sourceEntry, avgReliability := avg }

end ConfScorer

/-! ## VectorEngine (VectorEngine.js)

Scores are real numbers because `_cosineSimilarity` uses `Math.sqrt`.
The query cache memoizes `search` on its own key and never changes the
input-output relation, so it is not modelled; `_textToVector` (whose
`_simpleTextEmbedding` adds `Math.random()` noise) is modelled as an
oracle held by the engine state. -/

namespace VectorE

/-- A stored vector item (`item.vector` may be missing or not an array,
modelled by `none`). -/
structure VEItem where
  id : String
  text : String
  vector : Option (List ℚ)
deriving DecidableEq, Repr

/-- A per-database index as `_buildIndex` leaves it. -/
structure VEIndex where
  vectors : List VEItem
deriving DecidableEq, Repr

/-- Engine state: the `initialized` flag, the `indexes` table (`none` for
an unknown name or a database `_buildIndex` skipped because it had no
data), and the `_textToVector` oracle. -/
structure VEState where
  initialized : Bool
  indexes : String → Option VEIndex
  embed : String → List ℚ

/-- A hit produced by `_searchInIndex` (`{...item, score, database,
index}`), with the `engine` tag `_enrichResults` adds. -/
structure VEHit where
  id : String
  text : String
  score : ℝ
  database : String
  idx : ℕ
  engine : String := ""

/-- `_cosineSimilarity(vec1, vec2)`: zero on length mismatch or zero
magnitude, otherwise the normalized dot product. -/
noncomputable def cosineSimilarity (v1 v2 : List ℚ) : ℝ :=
  if v1.length ≠ v2.length then 0
  else
    let dotProduct : ℚ := ((v1.zip v2).map fun p => p.1 * p.2).sum
    let norm1 : ℚ := (v1.map fun x => x * x).sum
    let norm2 : ℚ := (v2.map fun x => x * x).sum
    let magnitude : ℝ := Real.sqrt (norm1 : ℝ) * Real.sqrt (norm2 : ℝ)
    if magnitude = 0 then 0 else (dotProduct : ℝ) / magnitude

/-- Descending-score order on vector hits. -/
def veGE (a b : VEHit) : Prop := b.score ≤ a.score

noncomputable instance : DecidableRel veGE := fun a b => Real.decidableLE b.score a.score

instance : IsTotal VEHit veGE := ⟨fun a b => le_total b.score a.score⟩

instance : IsTrans VEHit veGE := ⟨fun _ _ _ h1 h2 => le_trans h2 h1⟩

/-- `_searchInIndex(queryVector, database, topK, threshold)`: a missing
index yields `[]` (with a logged warning); otherwise keep items whose
similarity reaches the threshold, sort descending, cap at `topK`. -/
noncomputable def searchInIndex (st : VEState) (queryVector : List ℚ) (database : String)
    (topK : ℕ) (threshold : ℝ) : List VEHit :=
  match st.indexes database with
  | none => []
  | some index =>
    let similarities := index.vectors.enum.filterMap fun p =>
      match p.2.vector with
      | none => none
      | some vec =>
        let similarity := cosineSimilarity queryVector vec
        if threshold ≤ similarity then
          some { id := p.2.id, text := p.2.text, score := similarity,
                 database := database, idx := p.1 }
        else none
    (similarities.insertionSort veGE).take topK

/-- A conversation-context item as `_rerankWithContext` reads it. -/
structure CtxItem where
  type : String
  database : String
  entities : List String
deriving DecidableEq, Repr

/-- JS `String.includes`. -/
def strContains (s sub : String) : Bool :=
  (List.range (s.toList.length + 1)).any fun i => sub.toList.isPrefixOf (s.toList.drop i)

/-- The per-hit boost accumulated by `_rerankWithContext`. -/
def ctxBoost (context : List CtxItem) (r : VEHit) : ℚ :=
  context.foldl
    (fun acc ctx =>
      let acc := if ctx.type = "previous_result" ∧ ctx.database = r.database
        then acc + 0.1 else acc
      ctx.entities.foldl (fun a e => if strContains r.text e then a + 0.05 else a) acc)
    0

/-- `_rerankWithContext(results, context)`: boost by context matches,
clamp at 1.0, re-sort. -/
noncomputable def rerankWithContext (results : List VEHit) (context : List CtxItem) :
    List VEHit :=
  if context.length = 0 then results
  else
    ((results.map fun r =>
      { r with score := min (r.score * (1 + (ctxBoost context r : ℝ))) 1.0 }).insertionSort veGE)

/-- `_enrichResults(results, database)`: stamp the database and engine
into the metadata (the `retrievedAt` wall-clock stamp is not modelled). -/
def enrichResults (results : List VEHit) (database : String) : List VEHit :=
  results.map fun r => { r with database := database, engine := "VectorEngine" }

/-- Options of `search` (`topK || 10`, `threshold || 0.6`, optional
context). -/
structure VEOptions where
  topK : Option ℕ := none
  threshold : Option ℝ := none
  context : Option (List CtxItem) := none

/-- JS `v || d` defaulting over the reals. -/
noncomputable def orDR (v : Option ℝ) (d : ℝ) : ℝ :=
  match v with
  | none => d
  | some x => if x = 0 then d else x

/-- `search(query, database, options)`: the `NotInitializedError` guard,
embedding, index search, optional context rerank, and enrichment. -/
noncomputable def veSearch (st : VEState) (query : String) (database : String)
    (options : VEOptions) : Except String (List VEHit) :=
  if st.initialized = false then
    Except.error "VectorEngine not initialized. Call initialize() first."
  else
    let queryVector := st.embed query
    let results := searchInIndex st queryVector database
      (Hybrid.orDNat options.topK 10) (orDR options.threshold 0.6)
    let finalResults :=
      match options.context with
      | some ctx => rerankWithContext results ctx
      | none => results
    Except.ok (enrichResults finalResults database)

end VectorE

/-! ## TextSearchEngine (TextSearchEngine.js)

`_calculateIDF` stores `Math.log` values into `idfCache`; `search` only
ever reads that cache back (`idfCache.get(...) || 0`), so the cache
contents are part of the engine state here, with arbitrary rational
values standing for the stored logarithms. -/

namespace TextE

/-- Resolved configuration (constructor defaults `k1 = 1.5`, `b = 0.75`,
`minScore = 0.3`, `fuzzyThreshold = 0.7`, `ngramSize = 3`,
`useNgrams = true`, `useFuzzy = true`). -/
structure TConfig where
  k1 : ℚ
  b : ℚ
  minScore : ℚ
  fuzzyThreshold : ℚ
  ngramSize : ℕ
  useNgrams : Bool
  useFuzzy : Bool
deriving Repr

/-- Constructor defaults. -/
def defaultTConfig : TConfig :=
  { k1 := 1.5, b := 0.75, minScore := 0.3, fuzzyThreshold := 0.7,
    ngramSize := 3, useNgrams := true, useFuzzy := true }

/-- JS `\s` for the characters that occur here (ASCII whitespace). -/
def jsSpace (c : Char) : Bool :=
  c = ' ' || c = '\t' || c = '\n' || c = '\r' || c.val = 11 || c.val = 12

/-- JS `\w`: ASCII letters, digits and underscore. -/
def jsWordChar (c : Char) : Bool :=
  (('a' ≤ c && c ≤ 'z') || ('A' ≤ c && c ≤ 'Z') || ('0' ≤ c && c ≤ '9') || c = '_')

/-- The Arabic block `؀`–`ۿ`. -/
def arabicChar (c : Char) : Bool := 0x600 ≤ c.val && c.val ≤ 0x6FF

/-- The diacritic ranges `ؗ`–`ؚ` and `ً`–`ْ`. -/
def diacritic (c : Char) : Bool :=
  (0x617 ≤ c.val && c.val ≤ 0x61A) || (0x64B ≤ c.val && c.val ≤ 0x652)

/-- The letterform unification `أإآ → ا`, `ى → ي`, `ة → ه`. -/
def unifyChar (c : Char) : Char :=
  if c = 'أ' ∨ c = 'إ' ∨ c = 'آ' then 'ا'
  else if c = 'ى' then 'ي'
  else if c = 'ة' then 'ه'
  else c

/-- Collapse whitespace runs to a single space (`replace(/\s+/g, ' ')`). -/
def collapseAux : Bool → List Char → List Char
  | _, [] => []
  | prev, c :: t =>
    if jsSpace c then
      if prev then collapseAux true t else ' ' :: collapseAux true t
    else c :: collapseAux false t

/-- JS `trim` on a collapsed character list. -/
def trimChars (l : List Char) : List Char :=
  ((l.dropWhile jsSpace).reverse.dropWhile jsSpace).reverse

/-- JS `toLowerCase` on the characters that occur here (ASCII letters;
Arabic letters have no case). -/
def jsToLower (c : Char) : Char :=
  if 'A' ≤ c ∧ c ≤ 'Z' then Char.ofNat (c.toNat + 32) else c

/-- `_processText(text)`: lowercase, strip diacritics, unify letterforms,
replace punctuation by spaces, collapse and trim whitespace. -/
def processText (text : String) : String :=
  let step1 := (text.toList.map jsToLower).filter (fun c => !diacritic c)
  let step2 := step1.map unifyChar
  let step3 := step2.map fun c => if jsWordChar c || jsSpace c || arabicChar c then c else ' '
  String.mk (trimChars (collapseAux false step3))

/-- Split on whitespace runs (`split(/\s+/)`, with the empty pieces that
the later `length > 1` filter would discard anyway already dropped). -/
def splitWs (l : List Char) : List String :=
  ((l.splitOnP (fun c => jsSpace c)).filter (fun w => w ≠ [])).map String.mk

/-- `_generateNgrams(text, n)` over the text with whitespace removed. -/
def ngramsOf (text : String) (n : ℕ) : List String :=
  let clean := text.toList.filter (fun c => !jsSpace c)
  if clean.length < n then []
  else (List.range (clean.length - n + 1)).map fun i => String.mk ((clean.drop i).take n)

/-- `_tokenize(text)`: words longer than one character, plus n-grams when
enabled. -/
def tokenize (cfg : TConfig) (text : String) : List String :=
  let words := (splitWs text.toList).filter (fun w => w.length > 1)
  if cfg.useNgrams then words ++ ngramsOf text cfg.ngramSize else words

/-- A document as `_buildTextIndex` leaves it: its identity, the processed
text (`_processedText`) used by the fuzzy fallback, and the term-frequency
cache (`_termFreq`). -/
structure TDoc where
  id : String
  processedText : String
  termFreq : List (String × ℕ)
deriving DecidableEq, Repr

/-- A per-database text index. -/
structure TIndex where
  documents : List TDoc
  documentLengths : List ℕ
deriving DecidableEq, Repr

/-- Engine state after initialization: the indexes, the per-database
average document length, and the `idfCache` (database, term ↦ stored IDF,
`0` standing for a missing key as in `idfCache.get(...) || 0`). -/
structure TEState where
  index : String → Option TIndex
  avgDocLength : String → ℚ
  idf : String → String → ℚ

/-- A hit returned by the text engine. -/
structure THit where
  doc : TDoc
  score : ℚ
  database : String
  fuzzy : Bool := false
deriving DecidableEq, Repr

/-- Descending-score order on text hits. -/
def tGE (a b : THit) : Prop := b.score ≤ a.score

instance : DecidableRel tGE := fun a b => inferInstanceAs (Decidable (b.score ≤ a.score))

instance : IsTotal THit tGE := ⟨fun a b => le_total b.score a.score⟩

instance : IsTrans THit tGE := ⟨fun _ _ _ h1 h2 => le_trans h2 h1⟩

/-- The BM25 term contribution summed in `_bm25Search`. -/
def bm25Term (cfg : TConfig) (st : TEState) (database : String) (docLength : ℕ)
    (avgDocLength : ℚ) (doc : TDoc) (term : String) : ℚ :=
  let tf := (Hybrid.jsMapGet doc.termFreq term).getD 0
  if tf = 0 then 0
  else
    let idf := st.idf database term
    let numerator := (tf : ℚ) * (cfg.k1 + 1)
    let denominator := (tf : ℚ) + cfg.k1 * (1 - cfg.b + cfg.b * ((docLength : ℚ) / avgDocLength))
    idf * (numerator / denominator)

/-- `_bm25Search(queryTerms, database, topK)`. -/
def bm25Search (cfg : TConfig) (st : TEState) (queryTerms : List String) (database : String)
    (topK : ℕ) : List THit :=
  match st.index database with
  | none => []
  | some index =>
    let avg := st.avgDocLength database
    let results := (index.documents.zip index.documentLengths).filterMap fun p =>
      let score := (queryTerms.map (bm25Term cfg st database p.2 avg p.1)).sum
      if 0 < score then
        some { doc := p.1, score := score / (queryTerms.length : ℚ), database := database }
      else none
    (results.insertionSort tGE).take topK

/-- One matrix cell sweep of `_levenshteinDistance`: given the diagonal
value `matrix[i-1][j-1]`, the value just written `matrix[i][j-1]`, and the
remaining `(str2 char, matrix[i-1][j])` pairs, produce the rest of row
`i`. -/
def levStepAux (x : Char) : ℕ → ℕ → List (Char × ℕ) → List ℕ
  | _, _, [] => []
  | diag, left, (c, up) :: rest =>
    let cost := if x = c then 0 else 1
    let cell := min (left + 1) (min (up + 1) (diag + cost))
    cell :: levStepAux x up cell rest

/-- Row `i` of the `_levenshteinDistance` matrix from row `i - 1`. -/
def levStep (str2 : List Char) (x : Char) (row : List ℕ) : List ℕ :=
  match row with
  | [] => []
  | r0 :: rest => (r0 + 1) :: levStepAux x r0 (r0 + 1) (str2.zip rest)

/-- `_levenshteinDistance(str1, str2)`: the matrix dynamic program, row by
row (row 0 is `0..len2`; the answer is `matrix[len1][len2]`). -/
def levDist (str1 str2 : List Char) : ℕ :=
  (str1.foldl (fun row x => levStep str2 x row) (List.range (str2.length + 1))).getLastD 0

/-- `_levenshteinSimilarity(str1, str2)`: over the first 200 characters,
`1 - distance / maxLength`. -/
def levenshteinSimilarity (s1 s2 : String) : ℚ :=
  let a := s1.toList.take 200
  let b := s2.toList.take 200
  let distance := levDist a b
  let maxLength := max a.length b.length
  if maxLength = 0 then 1 else 1 - (distance : ℚ) / (maxLength : ℚ)

/-- `_fuzzySearch(query, database, topK)`: edit-distance similarity
against each document's processed text, scored at `0.8×`. -/
def fuzzySearch (cfg : TConfig) (st : TEState) (query : String) (database : String)
    (topK : ℕ) : List THit :=
  match st.index database with
  | none => []
  | some index =>
    let processedQuery := processText query
    let results := index.documents.filterMap fun doc =>
      let similarity := levenshteinSimilarity processedQuery doc.processedText
      if cfg.fuzzyThreshold ≤ similarity then
        some { doc := doc, score := similarity * 0.8, database := database, fuzzy := true }
      else none
    (results.insertionSort tGE).take topK

/-- `_mergeResults(results1, results2)`: a JS `Map` keyed by document
identity, first list first, second list only for new identities, then
re-sorted descending. -/
def mergeResults (results1 results2 : List THit) : List THit :=
  let m1 := results1.foldl (fun m h => Hybrid.jsMapSet m h.doc.id h) []
  let m2 := results2.foldl
    (fun m h => if (Hybrid.jsMapGet m h.doc.id).isSome then m else Hybrid.jsMapSet m h.doc.id h)
    m1
  (m2.map Prod.snd).insertionSort tGE

/-- `search(query, database, options)` on an initialized engine: BM25,
fuzzy fallback when fewer than 3 hits, and the final `minScore` filter. -/
def tSearch (cfg : TConfig) (st : TEState) (query : String) (database : String)
    (topK : Option ℕ) : List THit :=
  let processedQuery := processText query
  let queryTerms := tokenize cfg processedQuery
  let results := bm25Search cfg st queryTerms database (Hybrid.orDNat topK 10)
  let results :=
    if results.length < 3 ∧ cfg.useFuzzy then
      mergeResults results (fuzzySearch cfg st query database 5)
    else results
  results.filter fun r => cfg.minScore ≤ r.score

end TextE

/-! ## Theorems -/

/-- Every confidence `calcConfAux` writes is at least `minConfidence`. -/
theorem confAux_ge_min (cfg : Hybrid.HSConfig) (complexity : ℚ) :
    ∀ (i : ℕ) (l : List Hybrid.CResult),
      ∀ r ∈ Hybrid.calcConfAux cfg complexity i l, cfg.minConfidence ≤ r.confidence := by
  intro i l
  induction l generalizing i with
  | nil => intro r hr; simp [Hybrid.calcConfAux] at hr
  | cons a t ih =>
    intro r hr
    simp only [Hybrid.calcConfAux, List.mem_cons] at hr
    rcases hr with rfl | hr
    · exact le_max_right _ _
    · exact ih _ r hr

/-- Every confidence `calcConfAux` writes for a multi-source result is at
most 1, provided `minConfidence ≤ 1`. -/
theorem confAux_le_one (cfg : Hybrid.HSConfig) (complexity : ℚ)
    (hmin : cfg.minConfidence ≤ 1) :
    ∀ (i : ℕ) (l : List Hybrid.CResult),
      ∀ r ∈ Hybrid.calcConfAux cfg complexity i l, r.sourceCount > 1 → r.confidence ≤ 1 := by
  intro i l
  induction l generalizing i with
  | nil => intro r hr; simp [Hybrid.calcConfAux] at hr
  | cons a t ih =>
    intro r hr hsc
    simp only [Hybrid.calcConfAux, List.mem_cons] at hr
    rcases hr with rfl | hr
    · have hsc' : a.sourceCount > 1 := hsc
      show Hybrid.confidenceAt cfg complexity i a ≤ 1
      simp only [Hybrid.confidenceAt, if_pos hsc']
      refine max_le ?_ hmin
      have h2 : min (a.score * (1 - (i : ℚ) * 0.05) * 1.1) 1.0 ≤ 1 :=
        le_trans (min_le_right _ _) (by norm_num)
      split_ifs <;>
        first
          | exact le_trans (min_le_right _ _) (by norm_num)
          | linarith [h2]
    · exact ih _ r hr hsc

/-- C1, amended.  Every confidence `_calculateConfidence` returns is
lower-bounded by `minConfidence`, and for multi-source results
(`sourceCount > 1`) it is also upper-bounded by 1 whenever
`minConfidence ≤ 1`; single-source, non-exact-match results carry no
upper clamp and can exceed 1 (see the counterexample). -/
theorem C1_amended (cfg : Hybrid.HSConfig) (complexity : ℚ) (results : List Hybrid.CResult) :
    (∀ r ∈ Hybrid.calculateConfidence cfg complexity results,
      cfg.minConfidence ≤ r.confidence) ∧
    (cfg.minConfidence ≤ 1 →
      ∀ r ∈ Hybrid.calculateConfidence cfg complexity results,
        r.sourceCount > 1 → r.confidence ≤ 1) :=
  ⟨confAux_ge_min cfg complexity 0 results,
   fun hmin => confAux_le_one cfg complexity hmin 0 results⟩

/-- C1, counterexample.  A single-source result with fused score 2 (no
exact match, complexity 0) gets final confidence 2, which exceeds the
claimed upper bound 1.0. -/
theorem C1_counterexample :
    (Hybrid.calculateConfidence (Hybrid.mkHSConfig {}) 0
        [⟨2, 1, false, 0⟩]).map (fun r => r.confidence) = [2] ∧ ¬ ((2 : ℚ) ≤ 1) := by
  constructor
  · norm_num [Hybrid.calculateConfidence, Hybrid.calcConfAux, Hybrid.confidenceAt,
      Hybrid.mkHSConfig, Hybrid.orD, max_def, min_def]
  · norm_num

/-- C1, witness: the amended theorem applied to a concrete two-source
result. -/
theorem C1_witness :
    (Hybrid.mkHSConfig {}).minConfidence ≤
      (Hybrid.CResult.mk 2 2 false
        (Hybrid.confidenceAt (Hybrid.mkHSConfig {}) 0 0 ⟨2, 2, false, 0⟩)).confidence ∧
    (Hybrid.CResult.mk 2 2 false
        (Hybrid.confidenceAt (Hybrid.mkHSConfig {}) 0 0 ⟨2, 2, false, 0⟩)).confidence ≤ 1 :=
  ⟨(C1_amended (Hybrid.mkHSConfig {}) 0 [⟨2, 2, false, 0⟩]).1 _ (List.mem_singleton_self _),
   (C1_amended (Hybrid.mkHSConfig {}) 0 [⟨2, 2, false, 0⟩]).2
     (by norm_num [Hybrid.mkHSConfig, Hybrid.orD]) _ (List.mem_singleton_self _)
     (by decide)⟩

/-- C8: the dispatcher implements exactly the claimed priority cascade
(first match wins, in the claimed order). -/
theorem C8_strategy_cascade (q : Hybrid.AnalyzedQuery) :
    Hybrid.determineSearchStrategy q = Hybrid.specStrategyCascade q := by
  simp only [Hybrid.determineSearchStrategy, Hybrid.specStrategyCascade, gt_iff_lt,
    List.length_pos]

/-- `_removeDuplicates` keeps the head of a nonempty list. -/
theorem removeDuplicates_cons (r : Hybrid.FilterResult) (t : List Hybrid.FilterResult) :
    Hybrid.removeDuplicates (r :: t) = r :: Hybrid.dedupAux [r.key] t := by
  simp [Hybrid.removeDuplicates, Hybrid.dedupAux]

/-- The `v || d` defaulting never yields zero when the default is
positive. -/
theorem orDNat_pos (v : Option ℕ) (d : ℕ) (hd : 0 < d) : 0 < Hybrid.orDNat v d := by
  cases v with
  | none => exact hd
  | some x =>
    simp only [Hybrid.orDNat]
    split
    · exact hd
    · omega

/-- C6: the final filter never returns an empty list on a nonempty
candidate list — if the dynamic threshold drops everything, the best 3
unfiltered candidates are returned instead. -/
theorem C6_never_empty (o : Hybrid.HSOptions) (q : Hybrid.AnalyzedQuery)
    (results : List Hybrid.FilterResult) (hne : results ≠ []) :
    Hybrid.finalFiltering (Hybrid.mkHSConfig o) results q ≠ [] := by
  obtain ⟨r, t, rfl⟩ := List.exists_cons_of_ne_nil hne
  have huniq : Hybrid.removeDuplicates (r :: t) ≠ [] := by
    rw [removeDuplicates_cons]; exact List.cons_ne_nil _ _
  simp only [Hybrid.finalFiltering]
  split_ifs with h
  · obtain ⟨u, ut, hueq⟩ := List.exists_cons_of_ne_nil huniq
    rw [hueq]
    simp
  · push_neg at h
    have hlen : 0 < (Hybrid.removeDuplicates (r :: t)).length := List.length_pos.mpr huniq
    by_cases hf :
        ((Hybrid.removeDuplicates (r :: t)).filter fun x =>
          decide (Hybrid.calculateDynamicThreshold (Hybrid.mkHSConfig o)
            (Hybrid.removeDuplicates (r :: t)) q ≤ x.score)).length = 0
    · exact absurd (h hf) (by omega)
    · have hfne : ((Hybrid.removeDuplicates (r :: t)).filter fun x =>
          decide (Hybrid.calculateDynamicThreshold (Hybrid.mkHSConfig o)
            (Hybrid.removeDuplicates (r :: t)) q ≤ x.score)) ≠ [] := by
        intro hcontra
        exact hf (by rw [hcontra]; rfl)
      obtain ⟨a, l, haeq⟩ := List.exists_cons_of_ne_nil hfne
      have htopk : 0 < (Hybrid.mkHSConfig o).topK := orDNat_pos _ _ (by omega)
      obtain ⟨m, hm⟩ := Nat.exists_eq_succ_of_ne_zero (Nat.pos_iff_ne_zero.mp htopk)
      rw [haeq, hm]
      simp

/-- C6, witness: a singleton candidate list stays nonempty through the
filter. -/
theorem C6_witness :
    ([⟨"a", 1⟩] : List Hybrid.FilterResult) ≠ [] ∧
    Hybrid.finalFiltering (Hybrid.mkHSConfig {}) [⟨"a", 1⟩]
      ⟨⟨""⟩, ⟨false, false⟩, [], 0, [], [], []⟩ ≠ [] :=
  ⟨List.cons_ne_nil _ _,
   C6_never_empty {} ⟨⟨""⟩, ⟨false, false⟩, [], 0, [], [], []⟩ _ (List.cons_ne_nil _ _)⟩

/-- C7, counterexample.  A result set consisting of one result from the
primary `activity_database` collection gets source-reliability factor
score 0.35, not the claimed 0.95. -/
theorem C7_counterexample :
    (ConfScorer.scoreSourceReliability [⟨some "activity_database"⟩]).score = 0.35 ∧
    (0.35 : ℚ) ≠ 0.95 := by
  constructor
  · norm_num [ConfScorer.scoreSourceReliability, ConfScorer.reliabilityIncrement, min_def]
  · norm_num

/-- C7, amended.  For a nonempty result set drawn entirely from the
`activity_database` collection, the factor's `score` is 0.35 (the mean of
the per-result 0.35 increments, clamped above at 1), while the 0.95
figure appears only as the per-source `reliability` annotation. -/
theorem C7_amended (results : List ConfScorer.SResult) (hne : results ≠ [])
    (hall : ∀ r ∈ results, r.source = some "activity_database") :
    (ConfScorer.scoreSourceReliability results).score = 0.35 ∧
    ∀ p ∈ (ConfScorer.scoreSourceReliability results).sources, p.2 = 0.95 := by
  have hlen : results.length ≠ 0 := fun h => hne (List.length_eq_zero.mp h)
  have hinc : ∀ x ∈ results.map ConfScorer.reliabilityIncrement, x = (0.35 : ℚ) := by
    intro x hx
    obtain ⟨r, hr, rfl⟩ := List.mem_map.mp hx
    simp [ConfScorer.reliabilityIncrement, hall r hr]
  have hsum : (results.map ConfScorer.reliabilityIncrement).sum =
      (results.length : ℚ) * 0.35 := by
    rw [List.sum_eq_card_nsmul _ _ hinc, List.length_map, nsmul_eq_mul]
  have hlenQ : (results.length : ℚ) ≠ 0 := Nat.cast_ne_zero.mpr hlen
  constructor
  · simp only [ConfScorer.scoreSourceReliability, if_neg hlen, hsum]
    rw [mul_div_cancel_left₀ _ hlenQ]
    exact min_eq_right (by norm_num)
  · intro p hp
    simp only [ConfScorer.scoreSourceReliability, if_neg hlen] at hp
    obtain ⟨r, hr, rfl⟩ := List.mem_map.mp hp
    simp [ConfScorer.sourceEntry, hall r hr]

/-- C7, witness: the amended theorem at a concrete singleton result set. -/
theorem C7_witness :
    ([⟨some "activity_database"⟩] : List ConfScorer.SResult) ≠ [] ∧
    (ConfScorer.scoreSourceReliability [⟨some "activity_database"⟩]).score = 0.35 :=
  ⟨List.cons_ne_nil _ _,
   (C7_amended [⟨some "activity_database"⟩] (List.cons_ne_nil _ _)
     (by simp)).1⟩

/-- Folding multiplication over a factor list is multiplication by its
product. -/
theorem applyFactors_eq_mul_prod (l : List ℚ) (s : ℚ) :
    Hybrid.applyFactors s l = s * l.prod := by
  induction l generalizing s with
  | nil => simp [Hybrid.applyFactors]
  | cons a t ih =>
    have h := ih (s * a)
    simp only [Hybrid.applyFactors] at h ⊢
    rw [List.foldl_cons, h, List.prod_cons]
    ring

/-- Applying the factors in any permuted order yields the same score. -/
theorem applyFactors_perm (s : ℚ) {l1 l2 : List ℚ} (h : l1.Perm l2) :
    Hybrid.applyFactors s l1 = Hybrid.applyFactors s l2 := by
  rw [applyFactors_eq_mul_prod, applyFactors_eq_mul_prod, h.prod_eq]

/-- C3, counterexample to the claimed existence.  There is no input on
which a reordering of the five multiplicative boosts changes the reranked
score: each factor is independent of the accumulated score, so the result
is the starting score times the product of the factors, which is
invariant under permutation. -/
theorem C3_counterexample :
    ¬ ∃ (q : Hybrid.AnalyzedQuery) (r : Hybrid.RResult) (l : List ℚ),
      l.Perm (Hybrid.rerankFactors q r) ∧
      Hybrid.applyFactors r.score l ≠
        Hybrid.applyFactors r.score (Hybrid.rerankFactors q r) := by
  rintro ⟨q, r, l, hperm, hne⟩
  exact hne (applyFactors_perm r.score hperm)

/-- C3, amended.  The reranker's sequential body equals the starting score
times the product of its five factors, and applying the factors in any
permuted order gives the same score, so the application order is not
observable in the output. -/
theorem C3_amended (q : Hybrid.AnalyzedQuery) (r : Hybrid.RResult) (l : List ℚ)
    (hperm : l.Perm (Hybrid.rerankFactors q r)) :
    Hybrid.applyFactors r.score l =
      Hybrid.applyFactors r.score (Hybrid.rerankFactors q r) ∧
    Hybrid.rerankScore q r = Hybrid.applyFactors r.score (Hybrid.rerankFactors q r) := by
  constructor
  · exact applyFactors_perm r.score hperm
  · rw [applyFactors_eq_mul_prod]
    simp only [Hybrid.rerankScore, Hybrid.rerankFactors, List.prod_cons, List.prod_nil]
    split_ifs <;> ring

/-- C3, witness: the amended theorem at a concrete result with the
factors applied in reverse order. -/
theorem C3_witness :
    (Hybrid.rerankFactors ⟨⟨"GENERAL"⟩, ⟨false, false⟩, [], 0, [], [], []⟩
        ⟨"d", 1, 2, true, 0⟩).reverse.Perm
      (Hybrid.rerankFactors ⟨⟨"GENERAL"⟩, ⟨false, false⟩, [], 0, [], [], []⟩
        ⟨"d", 1, 2, true, 0⟩) ∧
    Hybrid.applyFactors (Hybrid.RResult.mk "d" 1 2 true 0).score
        (Hybrid.rerankFactors ⟨⟨"GENERAL"⟩, ⟨false, false⟩, [], 0, [], [], []⟩
          ⟨"d", 1, 2, true, 0⟩).reverse =
      Hybrid.applyFactors (Hybrid.RResult.mk "d" 1 2 true 0).score
        (Hybrid.rerankFactors ⟨⟨"GENERAL"⟩, ⟨false, false⟩, [], 0, [], [], []⟩
          ⟨"d", 1, 2, true, 0⟩) :=
  ⟨List.reverse_perm _,
   (C3_amended ⟨⟨"GENERAL"⟩, ⟨false, false⟩, [], 0, [], [], []⟩ ⟨"d", 1, 2, true, 0⟩ _
     (List.reverse_perm _)).1⟩

/-- Context reranking of an empty hit list is empty. -/
theorem rerankWithContext_nil (ctx : List VectorE.CtxItem) :
    VectorE.rerankWithContext [] ctx = [] := by
  simp [VectorE.rerankWithContext, List.insertionSort]

/-- C9: querying the vector engine before initialization raises the
not-initialized error; querying an unknown or unbuilt collection after
initialization returns an empty list instead of an error. -/
theorem C9_vector_engine :
    (∀ (st : VectorE.VEState) (query database : String) (options : VectorE.VEOptions),
      st.initialized = false →
      VectorE.veSearch st query database options =
        Except.error "VectorEngine not initialized. Call initialize() first.") ∧
    (∀ (st : VectorE.VEState) (query database : String) (options : VectorE.VEOptions),
      st.initialized = true → st.indexes database = none →
      VectorE.veSearch st query database options = Except.ok []) := by
  constructor
  · intro st q db o h
    simp [VectorE.veSearch, h]
  · intro st q db o hinit hidx
    have hsi : ∀ (v : List ℚ) (k : ℕ) (th : ℝ), VectorE.searchInIndex st v db k th = [] := by
      intro v k th
      simp [VectorE.searchInIndex, hidx]
    simp only [VectorE.veSearch, hinit]
    rw [if_neg (by simp)]
    rcases hc : o.context with _ | ctx <;>
      simp [hc, hsi, rerankWithContext_nil, VectorE.enrichResults]

/-- C9, witness: both branches of the theorem at concrete engine
states. -/
theorem C9_witness :
    (VectorE.VEState.mk false (fun _ => none) (fun _ => [])).initialized = false ∧
    VectorE.veSearch ⟨false, fun _ => none, fun _ => []⟩ "q" "zones" {} =
      Except.error "VectorEngine not initialized. Call initialize() first." ∧
    (VectorE.VEState.mk true (fun _ => none) (fun _ => [])).initialized = true ∧
    (VectorE.VEState.mk true (fun _ => none) (fun _ => [])).indexes "zones" = none ∧
    VectorE.veSearch ⟨true, fun _ => none, fun _ => []⟩ "q" "zones" {} = Except.ok [] :=
  ⟨rfl, C9_vector_engine.1 _ "q" "zones" {} rfl, rfl, rfl,
   C9_vector_engine.2 _ "q" "zones" {} rfl rfl⟩

/-- C10: every hit the text engine's search returns scores at least the
configured `minScore`; anything below it — including fuzzy-fallback hits
after their 0.8× discount — is dropped by the final filter. -/
theorem C10_min_score (cfg : TextE.TConfig) (st : TextE.TEState) (query database : String)
    (topK : Option ℕ) (r : TextE.THit)
    (hr : r ∈ TextE.tSearch cfg st query database topK) :
    cfg.minScore ≤ r.score := by
  simp only [TextE.tSearch, List.mem_filter, decide_eq_true_eq] at hr
  exact hr.2

/-- C10, witness: a concrete one-document index in which the single BM25
hit (score 10/7) passes the `minScore` filter. -/
theorem C10_witness :
    (⟨⟨"d1", "abc", [("ab", 2)]⟩, 10 / 7, "activities", false⟩ : TextE.THit) ∈
      TextE.tSearch ⟨3 / 2, 3 / 4, 3 / 10, 7 / 10, 3, true, false⟩
        ⟨fun _ => some ⟨[⟨"d1", "abc", [("ab", 2)]⟩], [2]⟩, fun _ => 2, fun _ _ => 1⟩
        "ab" "activities" none ∧
    (TextE.TConfig.mk (3 / 2) (3 / 4) (3 / 10) (7 / 10) 3 true false).minScore ≤
      (TextE.THit.mk ⟨"d1", "abc", [("ab", 2)]⟩ (10 / 7) "activities" false).score := by
  have hmem :
      (⟨⟨"d1", "abc", [("ab", 2)]⟩, 10 / 7, "activities", false⟩ : TextE.THit) ∈
        TextE.tSearch ⟨3 / 2, 3 / 4, 3 / 10, 7 / 10, 3, true, false⟩
          ⟨fun _ => some ⟨[⟨"d1", "abc", [("ab", 2)]⟩], [2]⟩, fun _ => 2, fun _ _ => 1⟩
          "ab" "activities" none := by
    have h1 : TextE.tokenize ⟨3 / 2, 3 / 4, 3 / 10, 7 / 10, 3, true, false⟩
        (TextE.processText "ab") = ["ab"] := rfl
    norm_num [TextE.tSearch, h1, TextE.bm25Search, TextE.bm25Term, Hybrid.jsMapGet,
      Hybrid.orDNat, List.insertionSort, List.orderedInsert, List.filterMap_cons,
      List.filterMap_nil, Option.getD]
  exact ⟨hmem, C10_min_score _ _ _ _ _ _ hmem⟩

/-- JS `Map.set` with a fresh key appends at the end. -/
theorem jsMapSet_fresh {V : Type} (m : List (String × V)) (k : String) (v : V)
    (h : k ∉ m.map Prod.fst) : Hybrid.jsMapSet m k v = m ++ [(k, v)] := by
  induction m with
  | nil => rfl
  | cons p t ih =>
    simp only [List.map_cons, List.mem_cons, not_or] at h
    simp only [Hybrid.jsMapSet, if_neg (Ne.symm h.1), List.cons_append]
    simp [ih h.2]

/-- A key is among the stored keys iff JS `Map.get` finds it. -/
theorem mem_keys_iff_get {V : Type} (m : List (String × V)) (k : String) :
    k ∈ m.map Prod.fst ↔ (Hybrid.jsMapGet m k).isSome := by
  induction m with
  | nil => simp [Hybrid.jsMapGet]
  | cons p t ih =>
    simp only [List.map_cons, List.mem_cons, Hybrid.jsMapGet]
    by_cases hp : p.1 = k
    · simp [hp]
    · simp only [if_neg hp, ← ih]
      constructor
      · rintro (h | h)
        · exact absurd h.symm hp
        · exact h
      · exact Or.inr

/-- JS `Map.get` after `Map.set` on the same key. -/
theorem jsMapGet_set_self {V : Type} (m : List (String × V)) (k : String) (v : V) :
    Hybrid.jsMapGet (Hybrid.jsMapSet m k v) k = some v := by
  induction m with
  | nil => simp [Hybrid.jsMapSet, Hybrid.jsMapGet]
  | cons p t ih =>
    by_cases hp : p.1 = k
    · simp [Hybrid.jsMapSet, Hybrid.jsMapGet, hp]
    · simp [Hybrid.jsMapSet, Hybrid.jsMapGet, hp, ih]

/-- JS `Map.set` on one key introduces no other key. -/
theorem not_mem_keys_set {V : Type} (m : List (String × V)) (k a : String) (v : V)
    (ha : a ≠ k) (h : a ∉ m.map Prod.fst) :
    a ∉ (Hybrid.jsMapSet m k v).map Prod.fst := by
  induction m with
  | nil => simpa [Hybrid.jsMapSet] using ha
  | cons p t ih =>
    simp only [List.map_cons, List.mem_cons, not_or] at h
    by_cases hp : p.1 = k
    · simp only [Hybrid.jsMapSet, if_pos hp, List.map_cons, List.mem_cons, not_or]
      exact ⟨fun hc => ha (hp ▸ hc), h.2⟩
    · simp only [Hybrid.jsMapSet, if_neg hp, List.map_cons, List.mem_cons, not_or]
      exact ⟨h.1, ih h.2⟩

/-- With distinct stored keys, JS `Map.delete` removes its key
entirely. -/
theorem not_mem_keys_delete {V : Type} (m : List (String × V)) (a : String)
    (hnd : (m.map Prod.fst).Nodup) :
    a ∉ (Hybrid.jsMapDelete m a).map Prod.fst := by
  induction m with
  | nil => simp [Hybrid.jsMapDelete]
  | cons p t ih =>
    simp only [List.map_cons, List.nodup_cons] at hnd
    by_cases hp : p.1 = a
    · simpa [Hybrid.jsMapDelete, if_pos hp, hp] using hnd.1
    · simp only [Hybrid.jsMapDelete, if_neg hp, List.map_cons, List.mem_cons, not_or]
      exact ⟨fun hc => hp hc.symm, ih hnd.2⟩

/-- C4, amended.  The hybrid-layer result cache is insertion-order FIFO:
inserting a fresh key into the cache at its capacity of 100 evicts
exactly the first-inserted entry.  The generic `CacheManager`, however,
is access-order LRU: the entry evicted by an insertion at capacity is the
front of `accessOrder` — the least recently *accessed* key, which `get`
refreshes — not necessarily the oldest-inserted key. -/
theorem C4_amended :
    (∀ (V : Type) (cache : List (String × V)) (k : String) (v : V),
      cache.length = 100 → k ∉ cache.map Prod.fst →
      Hybrid.hybridCacheStore cache k v = cache.tail ++ [(k, v)]) ∧
    (∀ (V : Type) (cfg : CacheM.CMConfig) (st : CacheM.CMState V) (now : ℕ)
      (k fk : String) (v : V),
      (st.cache.map Prod.fst).Nodup → cfg.maxSize ≤ st.cache.length →
      Hybrid.firstKey? st.accessOrder = some fk → fk ≠ k → fk ∈ st.cache.map Prod.fst →
      fk ∉ (CacheM.cmSet cfg st now k v none).cache.map Prod.fst) := by
  constructor
  · intro V cache k v hlen hfresh
    have hne : cache ≠ [] := by intro h; rw [h] at hlen; simp at hlen
    obtain ⟨p, t, rfl⟩ := List.exists_cons_of_ne_nil hne
    simp only [List.length_cons] at hlen
    simp only [Hybrid.hybridCacheStore, jsMapSet_fresh _ _ _ hfresh, List.cons_append]
    rw [if_pos (by simp only [List.length_cons, List.length_append, List.length_singleton]; omega)]
    simp [Hybrid.firstKey?, Hybrid.jsMapDelete]
  · intro V cfg st now k fk v hnd hcap hfirst hne hmem
    obtain ⟨e, he⟩ := Option.isSome_iff_exists.mp ((mem_keys_iff_get _ _).mp hmem)
    have hdel : CacheM.evictLRU st =
        ⟨Hybrid.jsMapDelete st.cache fk, Hybrid.jsMapDelete st.accessOrder fk⟩ := by
      simp only [CacheM.evictLRU, hfirst, CacheM.cmDelete, he]
    have h1 : fk ∉ (Hybrid.jsMapDelete st.cache fk).map Prod.fst :=
      not_mem_keys_delete _ _ hnd
    simp only [CacheM.cmSet, if_pos hcap, hdel, CacheM.updateAccess]
    rw [jsMapGet_set_self]
    exact not_mem_keys_set _ _ _ _ hne (not_mem_keys_set _ _ _ _ hne h1)

/-- C4, counterexample.  In the generic cache with capacity 2: insert
`k1`, insert `k2` (cache now at capacity, `k1` oldest-inserted), `get`
`k1`, then insert `k3` — the evicted key is `k2`, not the first-inserted
`k1`, because the `get` refreshed `k1`'s recency. -/
theorem C4_counterexample :
    ((CacheM.cmGet
        (CacheM.cmSet ⟨2, 3600000⟩
          (CacheM.cmSet (V := ℕ) ⟨2, 3600000⟩ ⟨[], []⟩ 0 "k1" 0 none) 1 "k2" 0 none)
        2 "k1").2).cache.map Prod.fst = ["k1", "k2"] ∧
    ((CacheM.cmSet (V := ℕ) ⟨2, 3600000⟩
        ((CacheM.cmGet
            (CacheM.cmSet ⟨2, 3600000⟩
              (CacheM.cmSet (V := ℕ) ⟨2, 3600000⟩ ⟨[], []⟩ 0 "k1" 0 none) 1 "k2" 0 none)
          2 "k1").2)
        3 "k3" 0 none).cache.map Prod.fst) = ["k1", "k3"] := by
  decide

/-- On the all-vector-success history, a weight-adaptation step is the
clamped shift toward vector followed by renormalization. -/
theorem updateStep_vectorOnly (w : LearnE.LWeights) :
    LearnE.updateWeightsStep LearnE.defaultLConfig w LearnE.vectorOnlyHistory =
      LearnE.normalizeWeights
        { w with vectorWeight := min (w.vectorWeight + 1 / 20) (4 / 5),
                 textWeight := max (w.textWeight - 1 / 20) (1 / 5) } := by
  have hrec : LearnE.getRecentInteractions LearnE.vectorOnlyHistory 50 =
      LearnE.vectorOnlyHistory := by decide
  have hguard : ¬(LearnE.vectorOnlyHistory.length < LearnE.defaultLConfig.minInteractions) := by
    decide
  have hfv : List.filter (fun i => decide ("vector" ∈ i.databases)) LearnE.vectorOnlyHistory =
      LearnE.vectorOnlyHistory := by decide
  have hft : List.filter (fun i => decide ("text" ∈ i.databases)) LearnE.vectorOnlyHistory =
      ([] : List LearnE.Interaction) := by decide
  have hfs : List.filter (fun i => i.success) LearnE.vectorOnlyHistory =
      LearnE.vectorOnlyHistory := by decide
  have hv : LearnE.calculateSuccessRate LearnE.vectorOnlyHistory "vector" = 1 := by
    simp only [LearnE.calculateSuccessRate, hfv, hfs]
    norm_num [LearnE.vectorOnlyHistory]
  have ht : LearnE.calculateSuccessRate LearnE.vectorOnlyHistory "text" = 1 / 2 := by
    simp only [LearnE.calculateSuccessRate, hft]
    norm_num
  simp only [LearnE.updateWeightsStep, hrec, LearnE.updateWeights, if_neg hguard, hv, ht,
    LearnE.defaultLConfig]
  norm_num
  intro h
  exact absurd h (by decide)

/-- C2, counterexample.  Starting from the persisted defaults, three
weight-adaptation steps on vector-favoring histories leave
`textWeight = 4/21 ≈ 0.19`, outside the claimed clamp range `[0.2, 0.8]`:
the clamp is applied before renormalization, and dividing by the total
1.05 pushes the text weight below 0.2. -/
theorem C2_counterexample :
    (LearnE.updateWeightsStep LearnE.defaultLConfig
      (LearnE.updateWeightsStep LearnE.defaultLConfig
        (LearnE.updateWeightsStep LearnE.defaultLConfig LearnE.initialWeights
          LearnE.vectorOnlyHistory)
        LearnE.vectorOnlyHistory)
      LearnE.vectorOnlyHistory).textWeight = 4 / 21 ∧
    ¬ ((0.2 : ℚ) ≤ 4 / 21) := by
  have h1 : LearnE.updateWeightsStep LearnE.defaultLConfig LearnE.initialWeights
      LearnE.vectorOnlyHistory = ⟨13 / 20, 1 / 4, 1 / 10, 3 / 20, 13 / 20⟩ := by
    rw [updateStep_vectorOnly]
    norm_num [LearnE.initialWeights, LearnE.normalizeWeights, min_def, max_def]
  have h2 : LearnE.updateWeightsStep LearnE.defaultLConfig
      (⟨13 / 20, 1 / 4, 1 / 10, 3 / 20, 13 / 20⟩ : LearnE.LWeights)
      LearnE.vectorOnlyHistory = ⟨7 / 10, 1 / 5, 1 / 10, 3 / 20, 13 / 20⟩ := by
    rw [updateStep_vectorOnly]
    norm_num [LearnE.normalizeWeights, min_def, max_def]
  have h3 : LearnE.updateWeightsStep LearnE.defaultLConfig
      (⟨7 / 10, 1 / 5, 1 / 10, 3 / 20, 13 / 20⟩ : LearnE.LWeights)
      LearnE.vectorOnlyHistory = ⟨5 / 7, 4 / 21, 2 / 21, 3 / 20, 13 / 20⟩ := by
    rw [updateStep_vectorOnly]
    norm_num [LearnE.normalizeWeights, min_def, max_def]
  rw [h1, h2, h3]
  norm_num

/-- Renormalization keeps the three retrieval weights summing to 1 and in
`(0, 0.8]` when fed clamped inputs, but cannot preserve the 0.2 lower
bound. -/
theorem normalizeWeights_bounds (w1 : LearnE.LWeights)
    (hv1 : 0.2 ≤ w1.vectorWeight) (hv2 : w1.vectorWeight ≤ 0.8)
    (ht1 : 0.2 ≤ w1.textWeight) (ht2 : w1.textWeight ≤ 0.8)
    (hs : 0 ≤ w1.semanticWeight) :
    (0 < (LearnE.normalizeWeights w1).vectorWeight ∧
      (LearnE.normalizeWeights w1).vectorWeight ≤ 0.8) ∧
    (0 < (LearnE.normalizeWeights w1).textWeight ∧
      (LearnE.normalizeWeights w1).textWeight ≤ 0.8) ∧
    (LearnE.normalizeWeights w1).vectorWeight + (LearnE.normalizeWeights w1).textWeight +
      (LearnE.normalizeWeights w1).semanticWeight = 1 := by
  simp only [LearnE.normalizeWeights]
  split_ifs with htot
  · exact ⟨⟨by linarith, hv2⟩, ⟨by linarith, ht2⟩, htot⟩
  · have hpos : 0 < w1.vectorWeight + w1.textWeight + w1.semanticWeight := by linarith
    refine ⟨⟨div_pos (by linarith) hpos, ?_⟩, ⟨div_pos (by linarith) hpos, ?_⟩, ?_⟩
    · rw [div_le_iff₀ hpos]; linarith
    · rw [div_le_iff₀ hpos]; linarith
    · rw [div_add_div_same, div_add_div_same, div_self (ne_of_gt hpos)]

/-- C2, amended.  From a state with `vectorWeight, textWeight ∈ [0.2, 0.8]`,
`semanticWeight ≥ 0` and the three retrieval weights summing to 1, a
weight-adaptation step (with a nonnegative learning rate) leaves
`vectorWeight` and `textWeight` in `(0, 0.8]` with the weights again
summing to 1 — the 0.2 lower bound holds for the clamped shift but can be
lost in renormalization (see the counterexample).  A threshold-adaptation
step always keeps `baseThreshold` within `[0.5, 0.75]` once it is there. -/
theorem C2_amended :
    (∀ (cfg : LearnE.LConfig) (w : LearnE.LWeights) (history : List LearnE.Interaction),
      0 ≤ cfg.learningRate →
      0.2 ≤ w.vectorWeight → w.vectorWeight ≤ 0.8 →
      0.2 ≤ w.textWeight → w.textWeight ≤ 0.8 →
      0 ≤ w.semanticWeight →
      w.vectorWeight + w.textWeight + w.semanticWeight = 1 →
      (0 < (LearnE.updateWeightsStep cfg w history).vectorWeight ∧
        (LearnE.updateWeightsStep cfg w history).vectorWeight ≤ 0.8) ∧
      (0 < (LearnE.updateWeightsStep cfg w history).textWeight ∧
        (LearnE.updateWeightsStep cfg w history).textWeight ≤ 0.8) ∧
      (LearnE.updateWeightsStep cfg w history).vectorWeight +
        (LearnE.updateWeightsStep cfg w history).textWeight +
        (LearnE.updateWeightsStep cfg w history).semanticWeight = 1) ∧
    (∀ (cfg : LearnE.LConfig) (w : LearnE.LWeights) (history : List LearnE.Interaction),
      0.5 ≤ w.baseThreshold → w.baseThreshold ≤ 0.75 →
      0.5 ≤ (LearnE.adjustThresholdStep cfg w history).baseThreshold ∧
      (LearnE.adjustThresholdStep cfg w history).baseThreshold ≤ 0.75) := by
  constructor
  · intro cfg w history hlr hv1 hv2 ht1 ht2 hs hsum
    simp only [LearnE.updateWeightsStep, LearnE.updateWeights]
    split_ifs with hguard hcmp
    · exact ⟨⟨by linarith, hv2⟩, ⟨by linarith, ht2⟩, hsum⟩
    · exact normalizeWeights_bounds _
        (le_min (by linarith) (by norm_num)) (min_le_right _ _)
        (le_max_right _ _) (max_le (by linarith) (by norm_num)) hs
    · exact normalizeWeights_bounds _
        (le_max_right _ _) (max_le (by linarith) (by norm_num))
        (le_min (by linarith) (by norm_num)) (min_le_right _ _) hs
  · intro cfg w history h1 h2
    simp only [LearnE.adjustThresholdStep, LearnE.adjustThreshold]
    split_ifs
    · exact ⟨h1, h2⟩
    · exact ⟨le_max_right _ _, max_le (by linarith) (by norm_num)⟩
    · exact ⟨le_min (by linarith) (by norm_num), min_le_right _ _⟩
    · exact ⟨h1, h2⟩

/-- C2, witness: both parts of the amended theorem at the constructor's
default configuration and initial weights. -/
theorem C2_witness :
    ((0 < (LearnE.updateWeightsStep LearnE.defaultLConfig LearnE.initialWeights
        []).vectorWeight ∧
      (LearnE.updateWeightsStep LearnE.defaultLConfig LearnE.initialWeights
        []).vectorWeight ≤ 0.8) ∧
     (0 < (LearnE.updateWeightsStep LearnE.defaultLConfig LearnE.initialWeights
        []).textWeight ∧
      (LearnE.updateWeightsStep LearnE.defaultLConfig LearnE.initialWeights
        []).textWeight ≤ 0.8) ∧
     (LearnE.updateWeightsStep LearnE.defaultLConfig LearnE.initialWeights
        []).vectorWeight +
       (LearnE.updateWeightsStep LearnE.defaultLConfig LearnE.initialWeights
        []).textWeight +
       (LearnE.updateWeightsStep LearnE.defaultLConfig LearnE.initialWeights
        []).semanticWeight = 1) ∧
    (0.5 ≤ (LearnE.adjustThresholdStep LearnE.defaultLConfig LearnE.initialWeights
        []).baseThreshold ∧
      (LearnE.adjustThresholdStep LearnE.defaultLConfig LearnE.initialWeights
        []).baseThreshold ≤ 0.75) :=
  ⟨C2_amended.1 LearnE.defaultLConfig LearnE.initialWeights []
    (by norm_num [LearnE.defaultLConfig])
    (by norm_num [LearnE.initialWeights]) (by norm_num [LearnE.initialWeights])
    (by norm_num [LearnE.initialWeights]) (by norm_num [LearnE.initialWeights])
    (by norm_num [LearnE.initialWeights]) (by norm_num [LearnE.initialWeights]),
   C2_amended.2 LearnE.defaultLConfig LearnE.initialWeights []
    (by norm_num [LearnE.initialWeights]) (by norm_num [LearnE.initialWeights])⟩

/-- A hit with a different identity leaves a map key's entry unchanged. -/
theorem lookupKey_addHit_of_ne (w : ℚ) (n : String) (m : List Hybrid.Fused)
    (h : Hybrid.Hit) (k : String) (hk : ¬ h.key = k) :
    Hybrid.lookupKey k (Hybrid.addHit w n m h) = Hybrid.lookupKey k m := by
  induction m with
  | nil => simp [Hybrid.addHit, Hybrid.lookupKey, hk]
  | cons e t ih =>
    by_cases he : e.key = h.key
    · have hek : ¬ e.key = k := fun hc => hk (he.symm.trans hc)
      simp only [Hybrid.addHit, if_pos he, Hybrid.lookupKey, if_neg hek]
    · simp only [Hybrid.addHit, if_neg he, Hybrid.lookupKey]
      by_cases hek : e.key = k
      · simp [if_pos hek]
      · simp only [if_neg hek, ih]

/-- A hit on an absent identity appends a fresh entry. -/
theorem lookupKey_addHit_self_none (w : ℚ) (n : String) (m : List Hybrid.Fused)
    (h : Hybrid.Hit) (k : String) (hk : h.key = k) (hm : Hybrid.lookupKey k m = none) :
    Hybrid.lookupKey k (Hybrid.addHit w n m h) = some ⟨k, h.score * w, [n], 1⟩ := by
  induction m with
  | nil => simp [Hybrid.addHit, Hybrid.lookupKey, hk]
  | cons e t ih =>
    simp only [Hybrid.lookupKey] at hm
    by_cases hek : e.key = k
    · rw [if_pos hek] at hm; exact absurd hm (by simp)
    · rw [if_neg hek] at hm
      by_cases he : e.key = h.key
      · exact absurd (he.trans hk) hek
      · simp only [Hybrid.addHit, if_neg he, Hybrid.lookupKey, if_neg hek]
        exact ih hm

/-- A hit on a present identity accumulates into the existing entry. -/
theorem lookupKey_addHit_self_some (w : ℚ) (n : String) (m : List Hybrid.Fused)
    (h : Hybrid.Hit) (k : String) (e : Hybrid.Fused) (hk : h.key = k)
    (hm : Hybrid.lookupKey k m = some e) :
    Hybrid.lookupKey k (Hybrid.addHit w n m h) =
      some ⟨e.key, e.score + h.score * w, e.sources ++ [n], e.sourceCount + 1⟩ := by
  induction m with
  | nil => simp [Hybrid.lookupKey] at hm
  | cons f t ih =>
    simp only [Hybrid.lookupKey] at hm
    by_cases hfk : f.key = k
    · rw [if_pos hfk] at hm
      obtain rfl : f = e := by simpa using hm
      have hfh : f.key = h.key := hfk.trans hk.symm
      simp only [Hybrid.addHit, if_pos hfh, Hybrid.lookupKey, if_pos hfk]
    · rw [if_neg hfk] at hm
      by_cases hfh : f.key = h.key
      · exact absurd (hfh.trans hk) hfk
      · simp only [Hybrid.addHit, if_neg hfh, Hybrid.lookupKey, if_neg hfk]
        exact ih hm

/-- Folding one source's hits over the map, starting from a map where the
identity is present: the entry accumulates the weighted sum of that
identity's hits and one source-name copy per hit. -/
theorem lookupKey_processHits_some (w : ℚ) (n : String) (l : List Hybrid.Hit) :
    ∀ (m : List Hybrid.Fused) (k : String) (e : Hybrid.Fused),
      Hybrid.lookupKey k m = some e →
      Hybrid.lookupKey k (l.foldl (Hybrid.addHit w n) m) =
        some ⟨e.key, e.score + w * ((Hybrid.keyHits k l).map Hybrid.Hit.score).sum,
          e.sources ++ List.replicate (Hybrid.keyHits k l).length n,
          e.sourceCount + (Hybrid.keyHits k l).length⟩ := by
  induction l with
  | nil =>
    intro m k e hm
    simp only [List.foldl_nil, hm, Hybrid.keyHits, List.filter_nil, List.map_nil,
      List.sum_nil, List.length_nil, List.replicate_zero, List.append_nil, mul_zero,
      add_zero]
  | cons h t ih =>
    intro m k e hm
    rw [List.foldl_cons]
    by_cases hk : h.key = k
    · rw [ih _ _ _ (lookupKey_addHit_self_some w n m h k e hk hm)]
      have hkh : Hybrid.keyHits k (h :: t) = h :: Hybrid.keyHits k t := by
        simp [Hybrid.keyHits, List.filter_cons, hk]
      rw [hkh]
      simp only [List.map_cons, List.sum_cons, List.length_cons, List.replicate_succ]
      apply congrArg some
      ext : 1
      · rfl
      · ring
      · simp
      · show e.sourceCount + 1 + (Hybrid.keyHits k t).length =
          e.sourceCount + ((Hybrid.keyHits k t).length + 1)
        omega
    · rw [ih _ _ _ (by rw [lookupKey_addHit_of_ne w n m h k hk]; exact hm)]
      have hkh : Hybrid.keyHits k (h :: t) = Hybrid.keyHits k t := by
        simp [Hybrid.keyHits, List.filter_cons, hk]
      rw [hkh]

/-- Folding one source's hits over a map where the identity is absent:
the entry is created with the weighted sum of that identity's hits, one
source-name copy per hit, and their count — or stays absent when the
source has no hit on that identity. -/
theorem lookupKey_processHits_none (w : ℚ) (n : String) (l : List Hybrid.Hit) :
    ∀ (m : List Hybrid.Fused) (k : String),
      Hybrid.lookupKey k m = none →
      Hybrid.lookupKey k (l.foldl (Hybrid.addHit w n) m) =
        if (Hybrid.keyHits k l).length = 0 then none
        else some ⟨k, w * ((Hybrid.keyHits k l).map Hybrid.Hit.score).sum,
          List.replicate (Hybrid.keyHits k l).length n, (Hybrid.keyHits k l).length⟩ := by
  induction l with
  | nil =>
    intro m k hm
    simp [List.foldl_nil, hm, Hybrid.keyHits]
  | cons h t ih =>
    intro m k hm
    rw [List.foldl_cons]
    by_cases hk : h.key = k
    · rw [lookupKey_processHits_some w n t _ k _
        (lookupKey_addHit_self_none w n m h k hk hm)]
      have hkh : Hybrid.keyHits k (h :: t) = h :: Hybrid.keyHits k t := by
        simp [Hybrid.keyHits, List.filter_cons, hk]
      rw [hkh]
      simp only [List.length_cons, List.map_cons, List.sum_cons, List.replicate_succ]
      rw [if_neg (Nat.succ_ne_zero _)]
      apply congrArg some
      ext : 1
      · rfl
      · ring
      · simp
      · show 1 + (Hybrid.keyHits k t).length = (Hybrid.keyHits k t).length + 1
        omega
    · rw [ih _ _ (by rw [lookupKey_addHit_of_ne w n m h k hk]; exact hm)]
      have hkh : Hybrid.keyHits k (h :: t) = Hybrid.keyHits k t := by
        simp [Hybrid.keyHits, List.filter_cons, hk]
      rw [hkh]

/-- C5: when two weighted sources each hit the same document identity
exactly once (raw scores `h1.score` and `h2.score`), the fused entry for
that identity scores exactly `raw1·w1 + raw2·w2` with `sourceCount` 2 and
both source names; the fused output is sorted by score descending and
capped at `topK`. -/
theorem C5_fusion (cfg : Hybrid.HSConfig) (n1 n2 : String)
    (hits1 hits2 : List Hybrid.Hit) (w1 w2 : ℚ) (k : String) (h1 h2 : Hybrid.Hit)
    (ha : Hybrid.keyHits k hits1 = [h1]) (hb : Hybrid.keyHits k hits2 = [h2]) :
    Hybrid.lookupKey k (Hybrid.fuseMap [⟨n1, hits1, w1⟩, ⟨n2, hits2, w2⟩]) =
      some ⟨k, h1.score * w1 + h2.score * w2, [n1, n2], 2⟩ ∧
    List.Sorted Hybrid.fusedGE
      (Hybrid.fuseResults cfg [⟨n1, hits1, w1⟩, ⟨n2, hits2, w2⟩]) ∧
    (Hybrid.fuseResults cfg [⟨n1, hits1, w1⟩, ⟨n2, hits2, w2⟩]).length ≤ cfg.topK := by
  refine ⟨?_, ?_, ?_⟩
  · have hstep1 : Hybrid.lookupKey k (Hybrid.processSource [] ⟨n1, hits1, w1⟩) =
        some ⟨k, w1 * h1.score, [n1], 1⟩ := by
      rw [Hybrid.processSource, lookupKey_processHits_none w1 n1 hits1 [] k rfl, ha]
      norm_num
    have hstep2 := lookupKey_processHits_some w2 n2 hits2
      (Hybrid.processSource [] ⟨n1, hits1, w1⟩) k _ hstep1
    rw [hb] at hstep2
    have : Hybrid.fuseMap [⟨n1, hits1, w1⟩, ⟨n2, hits2, w2⟩] =
        hits2.foldl (Hybrid.addHit w2 n2) (Hybrid.processSource [] ⟨n1, hits1, w1⟩) := rfl
    rw [this, hstep2]
    simp only [List.map_cons, List.map_nil, List.sum_cons, List.sum_nil, List.length_cons,
      List.length_nil, List.replicate_succ, List.replicate_zero]
    apply congrArg some
    ext : 1
    · rfl
    · ring
    · simp
    · rfl
  · exact (List.sorted_insertionSort Hybrid.fusedGE _).sublist (List.take_sublist _ _)
  · exact List.length_take_le _ _

/-- C5, witness: the vector hit (0.8, weight 0.6) and text hit (0.6,
weight 0.3) on the same document fuse to score 0.48 + 0.18 = 0.66 with
`sourceCount` 2. -/
theorem C5_witness :
    Hybrid.keyHits "doc1" [⟨"doc1", 0.8⟩] = [⟨"doc1", 0.8⟩] ∧
    Hybrid.keyHits "doc1" [⟨"doc1", 0.6⟩] = [⟨"doc1", 0.6⟩] ∧
    (Hybrid.lookupKey "doc1"
        (Hybrid.fuseMap [⟨"vector", [⟨"doc1", 0.8⟩], 0.6⟩, ⟨"text", [⟨"doc1", 0.6⟩], 0.3⟩]) =
      some ⟨"doc1", (0.8 : ℚ) * 0.6 + (0.6 : ℚ) * 0.3, ["vector", "text"], 2⟩ ∧
     List.Sorted Hybrid.fusedGE
       (Hybrid.fuseResults (Hybrid.mkHSConfig {})
         [⟨"vector", [⟨"doc1", 0.8⟩], 0.6⟩, ⟨"text", [⟨"doc1", 0.6⟩], 0.3⟩]) ∧
     (Hybrid.fuseResults (Hybrid.mkHSConfig {})
         [⟨"vector", [⟨"doc1", 0.8⟩], 0.6⟩, ⟨"text", [⟨"doc1", 0.6⟩], 0.3⟩]).length ≤
       (Hybrid.mkHSConfig {}).topK) ∧
    (0.8 : ℚ) * 0.6 + 0.6 * 0.3 = 0.66 :=
  ⟨rfl, rfl,
   C5_fusion (Hybrid.mkHSConfig {}) "vector" "text" [⟨"doc1", 0.8⟩] [⟨"doc1", 0.6⟩]
     0.6 0.3 "doc1" ⟨"doc1", 0.8⟩ ⟨"doc1", 0.6⟩ rfl rfl,
   by norm_num⟩

/-- C4, witness: both parts of the amended theorem at concrete caches. -/
theorem C4_witness :
    Hybrid.hybridCacheStore ((List.range 100).map fun i => (Nat.repr i, 0)) "fresh" 0 =
      ((List.range 100).map fun i => (Nat.repr i, 0)).tail ++ [("fresh", 0)] ∧
    "k2" ∉ ((CacheM.cmSet (V := ℕ) ⟨2, 3600000⟩
        ((CacheM.cmGet
            (CacheM.cmSet ⟨2, 3600000⟩
              (CacheM.cmSet (V := ℕ) ⟨2, 3600000⟩ ⟨[], []⟩ 0 "k1" 0 none) 1 "k2" 0 none)
          2 "k1").2)
        3 "k3" 0 none).cache.map Prod.fst) :=
  ⟨C4_amended.1 ℕ _ "fresh" 0 (by decide) (by decide),
   C4_amended.2 ℕ ⟨2, 3600000⟩ _ 3 "k3" "k2" 0 (by decide) (by decide) (by decide)
     (by decide) (by decide)⟩

end Spec2Proof
